import Mathlib

/-!
Shallow embedding of the MarkSweeper rules engine
(`src/js/game/Cell.js`, `GameBoard.js`, `GameState.js`, `GameLogic.js`).

JavaScript objects become Lean structures; in-place mutation becomes
functional update.  The board's 2D array of cells is embedded as a
function `Nat → Nat → Cell` together with the `rows`/`cols` bounds; the
random source used by the Fisher–Yates shuffle is an explicit parameter
`rand : Nat → Nat` (the JS `Math.floor(Math.random() * (i + 1))` becomes
`rand i % (i + 1)`).  `minesRemaining` and `mineCount` are `Int`, matching
JS numbers under the operations the code performs on them.
-/

/-! ### Cell (Cell.js) -/

structure Cell where
  isMine : Bool := false
  isRevealed : Bool := false
  isFlagged : Bool := false
  adjacentMines : Nat := 0
  row : Int := -1
  col : Int := -1
deriving DecidableEq, Repr

instance : Inhabited Cell := ⟨{}⟩

/-- `Cell.reveal()` state change: no-op when already revealed or flagged. -/
def Cell.revealC (c : Cell) : Cell :=
  if c.isRevealed || c.isFlagged then c else { c with isRevealed := true }

/-- `Cell.flag()` state change: toggle unless revealed. -/
def Cell.flagC (c : Cell) : Cell :=
  if c.isRevealed then c else { c with isFlagged := !c.isFlagged }

/-- `Cell.setMine()`. -/
def Cell.setMineC (c : Cell) : Cell := { c with isMine := true }

/-- `Cell.setAdjacentMines(count)` (the 0..8 guard never fires for counts the
board computes, so the throw branch is not represented). -/
def Cell.setAdjC (c : Cell) (count : Nat) : Cell := { c with adjacentMines := count }

/-- `Cell.reset()`: clears all state, keeps the coordinate. -/
def Cell.resetC (c : Cell) : Cell :=
  { c with isMine := false, isRevealed := false, isFlagged := false, adjacentMines := 0 }

/-! ### GameState (GameState.js) -/

inductive GState where
  | READY
  | PLAYING
  | WON
  | LOST
deriving DecidableEq, Repr

structure GameState where
  totalMines : Int
  minesRemaining : Int
  state : GState := GState.READY
  timer : Nat := 0
  firstClick : Bool := false
deriving DecidableEq, Repr

/-- `GameState.start()`: READY → PLAYING, guarded. -/
def GameState.start (s : GameState) : GameState :=
  if s.state ≠ GState.READY then s
  else { s with state := GState.PLAYING, firstClick := true }

/-- `GameState.win()`: PLAYING → WON, guarded. -/
def GameState.win (s : GameState) : GameState :=
  if s.state ≠ GState.PLAYING then s else { s with state := GState.WON }

/-- `GameState.lose()`: PLAYING → LOST, guarded. -/
def GameState.lose (s : GameState) : GameState :=
  if s.state ≠ GState.PLAYING then s else { s with state := GState.LOST }

/-- `GameState.isEnded()`. -/
def GameState.isEnded (s : GameState) : Bool :=
  s.state == GState.WON || s.state == GState.LOST

/-- `GameState.decrementMines()`: only decrements while positive. -/
def GameState.decrementMines (s : GameState) : GameState :=
  if s.minesRemaining > 0 then { s with minesRemaining := s.minesRemaining - 1 } else s

/-- `GameState.incrementMines()`: only increments below `totalMines`. -/
def GameState.incrementMines (s : GameState) : GameState :=
  if s.minesRemaining < s.totalMines then { s with minesRemaining := s.minesRemaining + 1 } else s

/-! ### GameBoard (GameBoard.js) -/

structure GameBoard where
  rows : Nat
  cols : Nat
  mineCount : Int
  cellAt : Nat → Nat → Cell

/-- `initializeGrid()` packaged with the dimension/mine configuration:
every cell blank, carrying its own coordinate. -/
def mkBoard (rows cols : Nat) (mineCount : Int) : GameBoard :=
  { rows := rows, cols := cols, mineCount := mineCount,
    cellAt := fun r c => { row := (r : Int), col := (c : Int) } }

/-- `isValidPosition(row, col)`. -/
def GameBoard.isValidPosition (b : GameBoard) (row col : Int) : Bool :=
  decide (0 ≤ row) && decide (row < (b.rows : Int)) &&
  decide (0 ≤ col) && decide (col < (b.cols : Int))

/-- `getCell(row, col)`: `null` out of bounds becomes `none`. -/
def GameBoard.getCell (b : GameBoard) (row col : Int) : Option Cell :=
  if b.isValidPosition row col then some (b.cellAt row.toNat col.toNat) else none

/-- Functional update of the grid at a raw (in-range) index, the counterpart
of mutating `this.grid[row][col]` through a method call. -/
def GameBoard.modifyCell (b : GameBoard) (r c : Nat) (f : Cell → Cell) : GameBoard :=
  { b with cellAt := fun r' c' =>
      if r' = r ∧ c' = c then f (b.cellAt r' c') else b.cellAt r' c' }

/-- Mutation through a reference obtained from `getCell` (no-op out of bounds,
where `getCell` returns `null`). -/
def GameBoard.modifyCellI (b : GameBoard) (row col : Int) (f : Cell → Cell) : GameBoard :=
  if b.isValidPosition row col then b.modifyCell row.toNat col.toNat f else b

/-- The eight compass-direction offsets of `getAdjacentCells`. -/
def directions : List (Int × Int) :=
  [(-1, -1), (-1, 0), (-1, 1), (0, -1), (0, 1), (1, -1), (1, 0), (1, 1)]

/-- `getAdjacentCells(row, col)`: the in-bounds neighbors, in direction order. -/
def GameBoard.getAdjacentCells (b : GameBoard) (row col : Int) : List Cell :=
  directions.filterMap (fun d => b.getCell (row + d.1) (col + d.2))

/-- Row-major list of all grid coordinates, the iteration order of
`forEachCell`. -/
def GameBoard.allCoords (b : GameBoard) : List (Nat × Nat) :=
  (List.range b.rows) ×ˢ (List.range b.cols)

/-- `getTotalCells()`. -/
def GameBoard.getTotalCells (b : GameBoard) : Nat := b.rows * b.cols

/-- `getCurrentMineCount()`. -/
def GameBoard.getCurrentMineCount (b : GameBoard) : Nat :=
  (b.allCoords.filter (fun p => (b.cellAt p.1 p.2).isMine)).length

/-- `clearMines()`: reset every mined cell. -/
def GameBoard.clearMines (b : GameBoard) : GameBoard :=
  { b with cellAt := fun r c =>
      if (b.cellAt r c).isMine then (b.cellAt r c).resetC else b.cellAt r c }

/-- `countAdjacentMines(row, col)`. -/
def GameBoard.countAdjacentMines (b : GameBoard) (row col : Int) : Nat :=
  ((b.getAdjacentCells row col).filter (fun cell => cell.isMine)).length

/-- `calculateAdjacentMines()`: recompute every in-bounds cell's count from
the (unchanged) mine configuration. -/
def GameBoard.calculateAdjacentMines (b : GameBoard) : GameBoard :=
  { b with cellAt := fun r c =>
      if r < b.rows ∧ c < b.cols then
        (b.cellAt r c).setAdjC (b.countAdjacentMines (r : Int) (c : Int))
      else b.cellAt r c }

/-- `isInSafetyZone(row, col, excludeRow, excludeCol)`. -/
def isInSafetyZone (row col excludeRow excludeCol : Int) : Bool :=
  decide ((row - excludeRow).natAbs ≤ 1) && decide ((col - excludeCol).natAbs ≤ 1)

/-- The `validPositions` list built inside `placeMines`: all coordinates,
minus the safety zone when an exclusion coordinate is supplied. -/
def GameBoard.validPositions (b : GameBoard) (excludeRow excludeCol : Int) : List (Nat × Nat) :=
  b.allCoords.filter (fun p =>
    !(decide (0 ≤ excludeRow) && decide (0 ≤ excludeCol) &&
      isInSafetyZone (p.1 : Int) (p.2 : Int) excludeRow excludeCol))

/-- One Fisher–Yates transposition: exchange the entries at `i` and `j`. -/
def swapL {α : Type} (l : List α) (i j : Nat) : List α :=
  match l.get? i, l.get? j with
  | some a, some b => (l.set i b).set j a
  | _, _ => l

/-- The descending loop of `shuffleArray`: indices `i, i-1, …, 1`. -/
def shuffleAux {α : Type} (rand : Nat → Nat) : Nat → List α → List α
  | 0, l => l
  | i + 1, l => shuffleAux rand i (swapL l (i + 1) (rand (i + 1) % (i + 2)))

/-- `shuffleArray(array)` (Fisher–Yates) driven by the random source `rand`. -/
def shuffleArray {α : Type} (rand : Nat → Nat) (l : List α) : List α :=
  shuffleAux rand (l.length - 1) l

/-- Set a mine through `grid[row][col].setMine()`. -/
def GameBoard.setMineAt (b : GameBoard) (p : Nat × Nat) : GameBoard :=
  b.modifyCell p.1 p.2 Cell.setMineC

/-- The clamping step at the top of `placeMines`: `mineCount` may not exceed
`totalCells - 1` (the `console.warn` is a no-op here). -/
def GameBoard.clampMineCount (b : GameBoard) : GameBoard :=
  let maxMines : Int := ((b.rows * b.cols : Nat) : Int) - 1
  if b.mineCount > maxMines then { b with mineCount := maxMines } else b

/-- `placeMines(excludeRow, excludeCol)`: clear, clamp, list valid positions,
shuffle, mine the first `min(mineCount, |validPositions|)` entries, recompute
adjacency; returns the new board and the number of mines placed. -/
def GameBoard.placeMines (b : GameBoard) (rand : Nat → Nat)
    (excludeRow excludeCol : Int) : GameBoard × Int :=
  let b2 := (b.clearMines).clampMineCount
  let shuffled := shuffleArray rand (b2.validPositions excludeRow excludeCol)
  let minesToPlace : Int := min b2.mineCount (shuffled.length : Int)
  let b3 := (shuffled.take minesToPlace.toNat).foldl GameBoard.setMineAt b2
  (b3.calculateAdjacentMines, minesToPlace)

/-! ### GameLogic (GameLogic.js) -/

structure Game where
  gameBoard : GameBoard
  gameState : GameState
  minesPlaced : Bool := false

structure RevealResult where
  success : Bool
  error : Option String := none
  gameOver : Bool := false
  won : Bool := false
  lost : Bool := false
  revealedCells : List Cell := []
deriving DecidableEq, Repr

structure FlagResult where
  success : Bool
  error : Option String := none
  flagged : Bool := false
  minesRemaining : Int := 0
deriving DecidableEq, Repr

namespace GameLogic

/-- `checkWinCondition()`: all non-mine cells revealed, computed by counting. -/
def checkWinCondition (b : GameBoard) : Bool :=
  let revealedCount := (b.allCoords.filter (fun p =>
    !(b.cellAt p.1 p.2).isMine && (b.cellAt p.1 p.2).isRevealed)).length
  let totalNonMineCells := (b.allCoords.filter (fun p =>
    !(b.cellAt p.1 p.2).isMine)).length
  revealedCount == totalNonMineCells

/-- The `while (queue.length > 0)` loop of `cascadeReveal`, with explicit
fuel standing in for the loop's own termination; `none` means the fuel ran
out before the queue emptied (shown impossible for `cascadeFuel`). -/
def cascadeLoop : GameBoard → Nat → List (Int × Int) → List (Int × Int) → List Cell →
    Option (GameBoard × List Cell)
  | b, _, [], _, acc => some (b, acc)
  | _, 0, _ :: _, _, _ => none
  | b, fuel + 1, (row, col) :: rest, visited, acc =>
    if (row, col) ∈ visited then cascadeLoop b fuel rest visited acc
    else
      let visited' := (row, col) :: visited
      match b.getCell row col with
      | none => cascadeLoop b fuel rest visited' acc
      | some cell =>
        if cell.isRevealed || cell.isFlagged || cell.isMine then
          cascadeLoop b fuel rest visited' acc
        else
          let b' := b.modifyCellI row col Cell.revealC
          let rcell := { cell with isRevealed := true }
          let acc' := acc ++ [rcell]
          if rcell.adjacentMines > 0 then cascadeLoop b' fuel rest visited' acc'
          else
            let enq := (b'.getAdjacentCells row col).filter (fun n =>
              decide ((n.row, n.col) ∉ visited') && !n.isRevealed && !n.isFlagged)
            cascadeLoop b' fuel (rest ++ enq.map (fun n => (n.row, n.col))) visited' acc'

/-- Fuel bound sufficient for `cascadeLoop` on a coordinate-faithful board. -/
def cascadeFuel (b : GameBoard) : Nat := 9 * (b.rows * b.cols + 1) + 1

/-- `cascadeReveal(startRow, startCol)`: breadth-first flood fill from the
seed, returning the mutated board and the list of newly revealed cells. -/
def cascadeReveal (b : GameBoard) (startRow startCol : Int) : GameBoard × List Cell :=
  match cascadeLoop b (cascadeFuel b) [(startRow, startCol)] [] [] with
  | some res => res
  | none => (b, [])

/-- `placeMinesSafely(safeRow, safeCol)`. -/
def placeMinesSafely (rand : Nat → Nat) (g : Game) (safeRow safeCol : Int) : Game :=
  { g with gameBoard := (g.gameBoard.placeMines rand safeRow safeCol).1, minesPlaced := true }

/-- `revealCell(row, col)`: the main reveal action. -/
def revealCell (rand : Nat → Nat) (g : Game) (row col : Int) : Game × RevealResult :=
  if !(g.gameBoard.isValidPosition row col) then
    (g, { success := false, error := some "Invalid position" })
  else if g.gameState.isEnded then
    (g, { success := false, error := some "Game is over" })
  else
    let cell0 := (g.gameBoard.getCell row col).getD default
    if cell0.isFlagged then
      (g, { success := false, error := some "Cell is flagged" })
    else if cell0.isRevealed then
      (g, { success := false, error := some "Cell already revealed" })
    else
      let g1 := if !g.minesPlaced then
          { placeMinesSafely rand g row col with gameState := g.gameState.start }
        else g
      let cell := (g1.gameBoard.getCell row col).getD default
      if cell.isRevealed || cell.isFlagged then
        (g1, { success := false, error := some "Could not reveal cell" })
      else
        let g2 := { g1 with gameBoard := g1.gameBoard.modifyCellI row col Cell.revealC }
        let rcell := { cell with isRevealed := true }
        if rcell.isMine then
          ({ g2 with gameState := g2.gameState.lose },
           { success := true, gameOver := true, won := false, lost := true,
             revealedCells := [rcell] })
        else
          let (b3, cascadeRevealed) :=
            if rcell.adjacentMines = 0 then cascadeReveal g2.gameBoard row col
            else (g2.gameBoard, [])
          let revealedCells := [rcell] ++ cascadeRevealed
          let g3 := { g2 with gameBoard := b3 }
          if checkWinCondition g3.gameBoard then
            ({ g3 with gameState := g3.gameState.win },
             { success := true, gameOver := true, won := true, lost := false,
               revealedCells := revealedCells })
          else
            (g3, { success := true, gameOver := false, won := false, lost := false,
                   revealedCells := revealedCells })

/-- `flagCell(row, col)`: toggle a flag and maintain the mine counter. -/
def flagCell (g : Game) (row col : Int) : Game × FlagResult :=
  if !(g.gameBoard.isValidPosition row col) then
    (g, { success := false, error := some "Invalid position" })
  else if g.gameState.isEnded then
    (g, { success := false, error := some "Game is over" })
  else
    let cell := (g.gameBoard.getCell row col).getD default
    if cell.isRevealed then
      (g, { success := false, error := some "Cannot flag revealed cell" })
    else
      let wasFlagged := cell.isFlagged
      let nowFlagged := (cell.flagC).isFlagged
      let b := g.gameBoard.modifyCellI row col Cell.flagC
      let gs := if nowFlagged && !wasFlagged then g.gameState.decrementMines
        else if !nowFlagged && wasFlagged then g.gameState.incrementMines
        else g.gameState
      ({ g with gameBoard := b, gameState := gs },
       { success := true, flagged := nowFlagged, minesRemaining := gs.minesRemaining })

/-- One `forEachCell` iteration of `revealAllMines`: reveal the cell and
record it when it is an unrevealed, unflagged mine. -/
def revealMineStep (acc : GameBoard × List Cell) (p : Nat × Nat) : GameBoard × List Cell :=
  let cell := acc.1.cellAt p.1 p.2
  if cell.isMine && !cell.isRevealed then
    if !cell.isFlagged then
      (acc.1.modifyCell p.1 p.2 Cell.revealC, acc.2 ++ [cell.revealC])
    else acc
  else acc

/-- `revealAllMines()`: reveal every unrevealed, unflagged mine, in
`forEachCell` order, returning the revealed mine cells. -/
def revealAllMines (b : GameBoard) : GameBoard × List Cell :=
  b.allCoords.foldl revealMineStep (b, [])

end GameLogic

/-! ### Reachability-invariant predicates and concrete fixtures -/

/-- Every cell's stored coordinate matches its grid position (the Board
invariant from the data model; established by `initializeGrid` and preserved
by every cell mutation the engine performs). -/
def coordsOk (b : GameBoard) : Prop :=
  ∀ p ∈ b.allCoords, (b.cellAt p.1 p.2).row = (p.1 : Int) ∧ (b.cellAt p.1 p.2).col = (p.2 : Int)

instance (b : GameBoard) : Decidable (coordsOk b) := by
  unfold coordsOk; infer_instance

/-- No mine cell is revealed (holds whenever the win check runs). -/
def noRevealedMine (b : GameBoard) : Prop :=
  ∀ p ∈ b.allCoords, (b.cellAt p.1 p.2).isMine = true → (b.cellAt p.1 p.2).isRevealed = false

instance (b : GameBoard) : Decidable (noRevealedMine b) := by
  unfold noRevealedMine; infer_instance

/-- Count of revealed cells over the whole grid (mines included). -/
def revealedTotal (b : GameBoard) : Nat :=
  (b.allCoords.filter (fun p => (b.cellAt p.1 p.2).isRevealed)).length

/-! ### Basic lemmas about the embedding -/

theorem mem_allCoords (b : GameBoard) (p : Nat × Nat) :
    p ∈ b.allCoords ↔ p.1 < b.rows ∧ p.2 < b.cols := by
  cases p with
  | mk r c => simp [GameBoard.allCoords, List.mem_product]

theorem allCoords_nodup (b : GameBoard) : b.allCoords.Nodup :=
  List.Nodup.product (List.nodup_range b.rows) (List.nodup_range b.cols)

theorem swapL_perm {α : Type} [DecidableEq α] (l : List α) (i j : Nat) :
    (swapL l i j).Perm l := by
  unfold swapL
  cases hi : l.get? i with
  | none => exact List.Perm.refl l
  | some a =>
    cases hj : l.get? j with
    | none => exact List.Perm.refl l
    | some b =>
      have hil : i < l.length := by
        by_contra h
        rw [List.get?_eq_none.mpr (Nat.le_of_not_lt h)] at hi
        exact Option.noConfusion hi
      have hjl : j < l.length := by
        by_contra h
        rw [List.get?_eq_none.mpr (Nat.le_of_not_lt h)] at hj
        exact Option.noConfusion hj
      have hia : l[i] = a := by
        have := List.get?_eq_getElem? l i
        rw [hi, List.getElem?_eq_getElem hil] at this
        exact (Option.some_injective _ this.symm)
      have hjb : l[j] = b := by
        have := List.get?_eq_getElem? l j
        rw [hj, List.getElem?_eq_getElem hjl] at this
        exact (Option.some_injective _ this.symm)
      rw [List.perm_iff_count]
      intro x
      have hjl' : j < (l.set i b).length := by simpa using hjl
      have hset : (l.set i b)[j] = b := by
        rw [List.getElem_set]
        split
        · rfl
        · exact hjb
      rw [List.count_set a x (l.set i b) j hjl', List.count_set b x l i hil, hset, hia]
      have hmem : a ∈ l := hia ▸ List.getElem_mem hil
      have hcount : (if (a == x) = true then 1 else 0) ≤ l.count x := by
        split
        · next h =>
          have : a = x := by simpa using h
          subst this
          exact List.count_pos_iff.mpr hmem
        · exact Nat.zero_le _
      omega

theorem shuffleAux_perm {α : Type} [DecidableEq α] (rand : Nat → Nat) :
    ∀ (n : Nat) (l : List α), (shuffleAux rand n l).Perm l
  | 0, _ => List.Perm.refl _
  | n + 1, l =>
    (shuffleAux_perm rand n (swapL l (n + 1) (rand (n + 1) % (n + 2)))).trans
      (swapL_perm l (n + 1) (rand (n + 1) % (n + 2)))

theorem shuffleArray_perm {α : Type} [DecidableEq α] (rand : Nat → Nat) (l : List α) :
    (shuffleArray rand l).Perm l :=
  shuffleAux_perm rand (l.length - 1) l

theorem modifyCell_cellAt (b : GameBoard) (r c : Nat) (f : Cell → Cell) (r' c' : Nat) :
    (b.modifyCell r c f).cellAt r' c' =
      if r' = r ∧ c' = c then f (b.cellAt r' c') else b.cellAt r' c' := rfl

theorem clearMines_isMine (b : GameBoard) (r c : Nat) :
    ((b.clearMines).cellAt r c).isMine = false := by
  simp only [GameBoard.clearMines]
  split
  · rfl
  · next h => simpa using h

theorem calcAdj_isMine (b : GameBoard) (r c : Nat) :
    ((b.calculateAdjacentMines).cellAt r c).isMine = (b.cellAt r c).isMine := by
  simp only [GameBoard.calculateAdjacentMines, Cell.setAdjC]
  split <;> rfl

theorem foldl_setMineAt_isMine (L : List (Nat × Nat)) (b : GameBoard) (r c : Nat) :
    ((L.foldl GameBoard.setMineAt b).cellAt r c).isMine =
      (decide ((r, c) ∈ L) || (b.cellAt r c).isMine) := by
  induction L generalizing b with
  | nil => simp
  | cons p L ih =>
    rw [List.foldl_cons, ih]
    by_cases h : (r, c) = p
    · rw [← h]
      simp [GameBoard.setMineAt, modifyCell_cellAt, Cell.setMineC]
    · have hne : ¬(r = p.1 ∧ c = p.2) := by
        intro hc
        exact h (Prod.ext hc.1 hc.2)
      simp [GameBoard.setMineAt, modifyCell_cellAt, hne, List.mem_cons, h]

theorem foldl_setMineAt_rows (L : List (Nat × Nat)) (b : GameBoard) :
    (L.foldl GameBoard.setMineAt b).rows = b.rows := by
  induction L generalizing b with
  | nil => rfl
  | cons p L ih => rw [List.foldl_cons]; exact ih _

theorem foldl_setMineAt_cols (L : List (Nat × Nat)) (b : GameBoard) :
    (L.foldl GameBoard.setMineAt b).cols = b.cols := by
  induction L generalizing b with
  | nil => rfl
  | cons p L ih => rw [List.foldl_cons]; exact ih _

theorem clampMineCount_rows (b : GameBoard) : (b.clampMineCount).rows = b.rows := by
  simp only [GameBoard.clampMineCount]
  split <;> rfl

theorem clampMineCount_cols (b : GameBoard) : (b.clampMineCount).cols = b.cols := by
  simp only [GameBoard.clampMineCount]
  split <;> rfl

theorem clampMineCount_cellAt (b : GameBoard) : (b.clampMineCount).cellAt = b.cellAt := by
  simp only [GameBoard.clampMineCount]
  split <;> rfl

theorem clampMineCount_mineCount (b : GameBoard) :
    (b.clampMineCount).mineCount = min b.mineCount (((b.rows * b.cols : Nat) : Int) - 1) := by
  simp only [GameBoard.clampMineCount]
  split
  · next h =>
    show ((b.rows * b.cols : Nat) : Int) - 1 = _
    omega
  · next h => omega

theorem validPositions_eq_of_dims {b b' : GameBoard} (hr : b'.rows = b.rows)
    (hc : b'.cols = b.cols) (er ec : Int) :
    b'.validPositions er ec = b.validPositions er ec := by
  unfold GameBoard.validPositions GameBoard.allCoords
  rw [hr, hc]

theorem not_mem_validPositions_of_zone (b : GameBoard) {er ec : Int} (h1 : 0 ≤ er) (h2 : 0 ≤ ec)
    {p : Nat × Nat} (hz : isInSafetyZone (p.1 : Int) (p.2 : Int) er ec = true) :
    p ∉ b.validPositions er ec := by
  intro hmem
  rw [GameBoard.validPositions, List.mem_filter] at hmem
  have h := hmem.2
  simp [h1, h2, hz] at h

theorem validPositions_subset (b : GameBoard) (er ec : Int) :
    b.validPositions er ec ⊆ b.allCoords :=
  fun _ hx => (List.mem_filter.mp hx).1

theorem validPositions_nodup (b : GameBoard) (er ec : Int) :
    (b.validPositions er ec).Nodup :=
  (allCoords_nodup b).filter _

theorem placeMines_def (b : GameBoard) (rand : Nat → Nat) (er ec : Int) :
    b.placeMines rand er ec =
      ((((shuffleArray rand (((b.clearMines).clampMineCount).validPositions er ec)).take
          (min ((b.clearMines).clampMineCount).mineCount
            (((shuffleArray rand (((b.clearMines).clampMineCount).validPositions er ec)).length : Nat) : Int)).toNat).foldl
          GameBoard.setMineAt ((b.clearMines).clampMineCount)).calculateAdjacentMines,
       min ((b.clearMines).clampMineCount).mineCount
         (((shuffleArray rand (((b.clearMines).clampMineCount).validPositions er ec)).length : Nat) : Int)) := rfl

theorem placeMines_validPositions (b : GameBoard) (er ec : Int) :
    ((b.clearMines).clampMineCount).validPositions er ec = b.validPositions er ec :=
  validPositions_eq_of_dims (by rw [clampMineCount_rows]; rfl) (by rw [clampMineCount_cols]; rfl) er ec

/-- C1: First-click safety.  After `placeMines(r, c)` with a valid in-bounds
exclusion coordinate, every grid cell inside the 3×3 safety zone centered at
`(r, c)` — the clicked cell and all its in-bounds 8-neighbors — has
`isMine = false`, for every random source. -/
theorem placeMines_first_click_safety (b : GameBoard) (rand : Nat → Nat) (r c : Int)
    (hv : b.isValidPosition r c = true) (row col : Nat)
    (hz : isInSafetyZone (row : Int) (col : Int) r c = true) :
    (((b.placeMines rand r c).1).cellAt row col).isMine = false := by
  have hv' := hv
  unfold GameBoard.isValidPosition at hv'
  simp only [Bool.and_eq_true, decide_eq_true_eq] at hv'
  have h0r : 0 ≤ r := hv'.1.1.1
  have h0c : 0 ≤ c := hv'.1.2
  rw [placeMines_def]
  rw [calcAdj_isMine, foldl_setMineAt_isMine, clampMineCount_cellAt, clearMines_isMine]
  simp only [Bool.or_false, decide_eq_false_iff_not]
  intro hmem
  have hmem2 : (row, col) ∈ shuffleArray rand (((b.clearMines).clampMineCount).validPositions r c) :=
    List.mem_of_mem_take hmem
  rw [(shuffleArray_perm rand _).mem_iff, placeMines_validPositions] at hmem2
  exact not_mem_validPositions_of_zone b h0r h0c hz hmem2

/-- Witness for C1: a concrete 3×3 board, exclusion coordinate (1,1), checking
the in-bounds neighbor (1,2). -/
theorem placeMines_first_click_safety_witness :
    (mkBoard 3 3 1).isValidPosition 1 1 = true ∧
    isInSafetyZone ((1 : Nat) : Int) ((2 : Nat) : Int) 1 1 = true ∧
    ((((mkBoard 3 3 1).placeMines (fun _ => 0) 1 1).1).cellAt 1 2).isMine = false :=
  ⟨by decide, by decide,
    placeMines_first_click_safety (mkBoard 3 3 1) (fun _ => 0) 1 1 (by decide) 1 2 (by decide)⟩

theorem length_filter_mem (L T : List (Nat × Nat)) (hL : L.Nodup) (hT : T.Nodup)
    (hsub : ∀ x ∈ T, x ∈ L) :
    (L.filter (fun q => decide (q ∈ T))).length = T.length := by
  have hperm : (L.filter (fun q => decide (q ∈ T))).Perm T := by
    rw [List.perm_ext_iff_of_nodup (hL.filter _) hT]
    intro x
    constructor
    · intro hmem
      simpa using (List.mem_filter.mp hmem).2
    · intro hx
      exact List.mem_filter.mpr ⟨hsub x hx, by simpa⟩
  exact hperm.length_eq

theorem getCurrentMineCount_calcAdj (b : GameBoard) :
    (b.calculateAdjacentMines).getCurrentMineCount = b.getCurrentMineCount := by
  unfold GameBoard.getCurrentMineCount
  have hco : (b.calculateAdjacentMines).allCoords = b.allCoords := rfl
  rw [hco, List.filter_congr (fun p _ => calcAdj_isMine b p.1 p.2)]

theorem getCurrentMineCount_foldl (b : GameBoard) (T : List (Nat × Nat))
    (hclear : ∀ r c, (b.cellAt r c).isMine = false)
    (hT : T.Nodup) (hsub : ∀ x ∈ T, x ∈ b.allCoords) :
    (T.foldl GameBoard.setMineAt b).getCurrentMineCount = T.length := by
  unfold GameBoard.getCurrentMineCount
  rw [show (T.foldl GameBoard.setMineAt b).allCoords = b.allCoords from by
    unfold GameBoard.allCoords; rw [foldl_setMineAt_rows, foldl_setMineAt_cols]]
  rw [List.filter_congr (fun p _ => by
    rw [foldl_setMineAt_isMine T b p.1 p.2, hclear p.1 p.2, Bool.or_false])]
  exact length_filter_mem _ T (allCoords_nodup b) hT hsub

/-- Counterexample for C3 as stated: a 2×2 board configured with 3 mines
(clamping leaves the count at 3 = totalCells − 1), exclusion coordinate
(0,0).  The 3×3 safety zone covers the whole board, so zero mines are placed
even though the clamped mine count is 3. -/
theorem placeMines_count_counterexample :
    ((mkBoard 2 2 3).placeMines (fun _ => 0) 0 0).1.getCurrentMineCount = 0 ∧
    ((mkBoard 2 2 3).placeMines (fun _ => 0) 0 0).2 = 0 ∧
    min ((mkBoard 2 2 3).mineCount) (((2 * 2 : Nat) : Int) - 1) = 3 ∧
    (0 : Int) ≠ 3 := by decide

/-- C3 (amended): for every board with a nonnegative configured mine count
and at least one cell, after `placeMines` the number of cells with
`isMine = true` equals the returned count, which is
`min(clamped mineCount, |validPositions|)`: this is the clamped mine count
whenever enough positions remain outside the safety zone, but strictly
smaller when the exclusion zone leaves too few valid positions. -/
theorem placeMines_mine_count (b : GameBoard) (rand : Nat → Nat) (er ec : Int)
    (hmc : 0 ≤ b.mineCount) (hcells : 0 < b.rows * b.cols) :
    ((((b.placeMines rand er ec).1).getCurrentMineCount : Nat) : Int) = (b.placeMines rand er ec).2 ∧
    (b.placeMines rand er ec).2 =
      min (min b.mineCount (((b.rows * b.cols : Nat) : Int) - 1))
        (((b.validPositions er ec).length : Nat) : Int) := by
  rw [placeMines_def]
  set b2 := (b.clearMines).clampMineCount with hb2
  set shuffled := shuffleArray rand (b2.validPositions er ec) with hshuffled
  set n : Int := min b2.mineCount ((shuffled.length : Nat) : Int) with hn
  have hb2mc : b2.mineCount = min b.mineCount (((b.rows * b.cols : Nat) : Int) - 1) := by
    rw [hb2, clampMineCount_mineCount]
    rfl
  have hperm : shuffled.Perm (b2.validPositions er ec) :=
    shuffleArray_perm rand (b2.validPositions er ec)
  have hvp : b2.validPositions er ec = b.validPositions er ec := placeMines_validPositions b er ec
  have hlen : shuffled.length = (b.validPositions er ec).length := by
    have h := hperm.length_eq
    rw [hvp] at h
    exact h
  have hT_nodup : (shuffled.take n.toNat).Nodup :=
    List.Nodup.sublist (List.take_sublist _ _)
      ((hperm.nodup_iff).mpr (validPositions_nodup _ er ec))
  have hsubT : ∀ x ∈ shuffled.take n.toNat, x ∈ b2.allCoords := fun x hx =>
    validPositions_subset b2 er ec (hperm.mem_iff.mp (List.mem_of_mem_take hx))
  have hclear2 : ∀ r c, (b2.cellAt r c).isMine = false := by
    intro r c
    rw [hb2, clampMineCount_cellAt]
    exact clearMines_isMine b r c
  have hmc2 : 0 ≤ b2.mineCount := by
    rw [hb2mc]
    omega
  constructor
  · show ((((shuffled.take n.toNat).foldl GameBoard.setMineAt b2).calculateAdjacentMines).getCurrentMineCount : Int) = n
    rw [getCurrentMineCount_calcAdj,
      getCurrentMineCount_foldl b2 _ hclear2 hT_nodup hsubT, List.length_take]
    rw [hn]
    omega
  · show n = _
    rw [hn, hb2mc, hlen]

theorem length_filter_not_add {α : Type} (L : List α) (f : α → Bool) :
    (L.filter (fun a => !(f a))).length + (L.filter f).length = L.length := by
  induction L with
  | nil => rfl
  | cons x L ih =>
    cases hx : f x <;> simp [List.filter_cons, hx, ← ih] <;> omega

theorem allCoords_length (b : GameBoard) : b.allCoords.length = b.rows * b.cols := by
  unfold GameBoard.allCoords
  rw [List.length_product, List.length_range, List.length_range]

/-- C2: win-condition equivalence.  On any board satisfying the
reachable-state invariants in force whenever the win check runs — the number
of cells with `isMine = true` equals the configured `mineCount`, and no mine
cell is revealed — `checkWinCondition` returns true iff the number of
revealed cells equals `totalCells − mineCount`, equivalently iff every
non-mine cell has `isRevealed = true`. -/
theorem checkWinCondition_iff (b : GameBoard)
    (hmines : ((b.getCurrentMineCount : Nat) : Int) = b.mineCount)
    (hnorev : noRevealedMine b) :
    (GameLogic.checkWinCondition b = true ↔
      ((revealedTotal b : Nat) : Int) = ((b.getTotalCells : Nat) : Int) - b.mineCount) ∧
    (GameLogic.checkWinCondition b = true ↔
      ∀ p ∈ b.allCoords, (b.cellAt p.1 p.2).isMine = false →
        (b.cellAt p.1 p.2).isRevealed = true) := by
  have hwin : GameLogic.checkWinCondition b = true ↔
      (b.allCoords.filter (fun p =>
        !(b.cellAt p.1 p.2).isMine && (b.cellAt p.1 p.2).isRevealed)).length =
      (b.allCoords.filter (fun p => !(b.cellAt p.1 p.2).isMine)).length := by
    unfold GameLogic.checkWinCondition
    exact beq_iff_eq
  have hRT : revealedTotal b = (b.allCoords.filter (fun p =>
      !(b.cellAt p.1 p.2).isMine && (b.cellAt p.1 p.2).isRevealed)).length := by
    apply congrArg List.length
    apply List.filter_congr
    intro p hp
    cases hrev : (b.cellAt p.1 p.2).isRevealed
    · simp [hrev]
    · cases hm : (b.cellAt p.1 p.2).isMine
      · simp [hrev, hm]
      · exact absurd (hnorev p hp hm) (by simp [hrev])
  have hpart : (b.allCoords.filter (fun p => !(b.cellAt p.1 p.2).isMine)).length +
      b.getCurrentMineCount = b.allCoords.length :=
    length_filter_not_add b.allCoords (fun p => (b.cellAt p.1 p.2).isMine)
  have htot : b.allCoords.length = b.getTotalCells := allCoords_length b
  have hsplit : (b.allCoords.filter (fun p =>
      !(b.cellAt p.1 p.2).isMine && (b.cellAt p.1 p.2).isRevealed)) =
      ((b.allCoords.filter (fun p => !(b.cellAt p.1 p.2).isMine)).filter
        (fun p => (b.cellAt p.1 p.2).isRevealed)) := by
    rw [List.filter_filter]
    apply List.filter_congr
    intro p _
    exact Bool.and_comm _ _
  constructor
  · rw [hwin, hRT]
    omega
  · rw [hwin, hsplit, List.filter_length_eq_length]
    constructor
    · intro h p hp hm
      exact h p (List.mem_filter.mpr ⟨hp, by simp [hm]⟩)
    · intro h p hp
      obtain ⟨hpL, hpm⟩ := List.mem_filter.mp hp
      exact h p hpL (by simpa using hpm)

/-- A 1×2 board with one mine at (0,0): fixture for the win-check witness. -/
def wBoard : GameBoard := (mkBoard 1 2 1).modifyCell 0 0 Cell.setMineC

/-- Witness for C2 at the concrete board `wBoard`. -/
theorem checkWinCondition_iff_witness :
    (((wBoard.getCurrentMineCount : Nat) : Int) = wBoard.mineCount ∧ noRevealedMine wBoard) ∧
    ((GameLogic.checkWinCondition wBoard = true ↔
      ((revealedTotal wBoard : Nat) : Int) = ((wBoard.getTotalCells : Nat) : Int) - wBoard.mineCount) ∧
    (GameLogic.checkWinCondition wBoard = true ↔
      ∀ p ∈ wBoard.allCoords, (wBoard.cellAt p.1 p.2).isMine = false →
        (wBoard.cellAt p.1 p.2).isRevealed = true)) :=
  ⟨⟨by decide, by decide⟩, checkWinCondition_iff wBoard (by decide) (by decide)⟩

/-! ### Flag-action lemmas (C4, C5, C9) -/

theorem isValidPosition_modifyCellI (b : GameBoard) (row col : Int) (f : Cell → Cell)
    (r' c' : Int) :
    (b.modifyCellI row col f).isValidPosition r' c' = b.isValidPosition r' c' := by
  unfold GameBoard.modifyCellI
  split <;> rfl

theorem getCell_modifyCellI_same (b : GameBoard) (row col : Int) (f : Cell → Cell)
    (hv : b.isValidPosition row col = true) :
    (b.modifyCellI row col f).getCell row col = some (f (b.cellAt row.toNat col.toNat)) := by
  unfold GameBoard.modifyCellI GameBoard.getCell GameBoard.modifyCell
  simp [hv]
  exact hv

theorem modifyCellI_cellAt_other (b : GameBoard) (row col : Int) (f : Cell → Cell)
    (r c : Nat) (h : ¬(r = row.toNat ∧ c = col.toNat)) :
    (b.modifyCellI row col f).cellAt r c = b.cellAt r c := by
  unfold GameBoard.modifyCellI GameBoard.modifyCell
  split
  · simp [h]
  · rfl

theorem modifyCellI_cellAt_target (b : GameBoard) (row col : Int) (f : Cell → Cell)
    (hv : b.isValidPosition row col = true) :
    (b.modifyCellI row col f).cellAt row.toNat col.toNat =
      f (b.cellAt row.toNat col.toNat) := by
  unfold GameBoard.modifyCellI GameBoard.modifyCell
  simp [hv]

theorem getCell_some (b : GameBoard) (row col : Int) (hv : b.isValidPosition row col = true) :
    b.getCell row col = some (b.cellAt row.toNat col.toNat) := by
  unfold GameBoard.getCell
  simp [hv]

/-- Characterization of a successful `flagCell` call: with a valid position,
an unfinished round and an unrevealed target, the flag toggles and the counter
moves through `decrementMines`/`incrementMines` according to the old state. -/
theorem flagCell_success (g : Game) (row col : Int)
    (hv : g.gameBoard.isValidPosition row col = true)
    (hend : g.gameState.isEnded = false)
    (hrev : (g.gameBoard.cellAt row.toNat col.toNat).isRevealed = false) :
    GameLogic.flagCell g row col =
      ({ g with gameBoard := g.gameBoard.modifyCellI row col Cell.flagC,
                gameState := if !(g.gameBoard.cellAt row.toNat col.toNat).isFlagged then
                    g.gameState.decrementMines else g.gameState.incrementMines },
       { success := true,
         flagged := !(g.gameBoard.cellAt row.toNat col.toNat).isFlagged,
         minesRemaining := (if !(g.gameBoard.cellAt row.toNat col.toNat).isFlagged then
             g.gameState.decrementMines else g.gameState.incrementMines).minesRemaining }) := by
  unfold GameLogic.flagCell
  rw [getCell_some g.gameBoard row col hv]
  simp only [hv, hend, Option.getD_some, Bool.not_true, Bool.false_eq_true, if_false,
    Bool.not_false, if_true, hrev]
  have hfc : (g.gameBoard.cellAt row.toNat col.toNat).flagC.isFlagged
      = !(g.gameBoard.cellAt row.toNat col.toNat).isFlagged := by
    simp [Cell.flagC, hrev]
  simp only [hfc]
  cases hf : (g.gameBoard.cellAt row.toNat col.toNat).isFlagged <;> simp [hf]

theorem flagC_isRevealed (c : Cell) : (c.flagC).isRevealed = c.isRevealed := by
  unfold Cell.flagC
  split <;> rfl

theorem flagC_isMine (c : Cell) : (c.flagC).isMine = c.isMine := by
  unfold Cell.flagC
  split <;> rfl

theorem flagC_of_unrevealed {c : Cell} (hrev : c.isRevealed = false) :
    c.flagC = { c with isFlagged := !c.isFlagged } := by
  unfold Cell.flagC
  rw [hrev]
  rfl

theorem decrementMines_state (s : GameState) : (s.decrementMines).state = s.state := by
  unfold GameState.decrementMines
  split <;> rfl

theorem incrementMines_state (s : GameState) : (s.incrementMines).state = s.state := by
  unfold GameState.incrementMines
  split <;> rfl

theorem decrementMines_isEnded (s : GameState) : (s.decrementMines).isEnded = s.isEnded := by
  unfold GameState.isEnded
  rw [decrementMines_state]

theorem decrementMines_totalMines (s : GameState) :
    (s.decrementMines).totalMines = s.totalMines := by
  unfold GameState.decrementMines
  split <;> rfl

theorem incrementMines_totalMines (s : GameState) :
    (s.incrementMines).totalMines = s.totalMines := by
  unfold GameState.incrementMines
  split <;> rfl

theorem decrementMines_timer (s : GameState) : (s.decrementMines).timer = s.timer := by
  unfold GameState.decrementMines
  split <;> rfl

theorem incrementMines_timer (s : GameState) : (s.incrementMines).timer = s.timer := by
  unfold GameState.incrementMines
  split <;> rfl

theorem decrementMines_firstClick (s : GameState) :
    (s.decrementMines).firstClick = s.firstClick := by
  unfold GameState.decrementMines
  split <;> rfl

theorem incrementMines_firstClick (s : GameState) :
    (s.incrementMines).firstClick = s.firstClick := by
  unfold GameState.incrementMines
  split <;> rfl

theorem decrementMines_minesRemaining (s : GameState) :
    (s.decrementMines).minesRemaining =
      if 0 < s.minesRemaining then s.minesRemaining - 1 else s.minesRemaining := by
  unfold GameState.decrementMines
  split <;> [rfl; rfl]

theorem dec_inc_minesRemaining (s : GameState) (h1 : 0 < s.minesRemaining)
    (h2 : s.minesRemaining ≤ s.totalMines) :
    ((s.decrementMines).incrementMines).minesRemaining = s.minesRemaining := by
  unfold GameState.decrementMines GameState.incrementMines
  rw [if_pos h1]
  have hlt : ({ s with minesRemaining := s.minesRemaining - 1 } : GameState).minesRemaining <
      ({ s with minesRemaining := s.minesRemaining - 1 } : GameState).totalMines := by
    show s.minesRemaining - 1 < s.totalMines
    omega
  rw [if_pos hlt]
  show s.minesRemaining - 1 + 1 = s.minesRemaining
  omega

theorem modifyCellI_rows (b : GameBoard) (row col : Int) (f : Cell → Cell) :
    (b.modifyCellI row col f).rows = b.rows := by
  unfold GameBoard.modifyCellI
  split <;> rfl

theorem modifyCellI_cols (b : GameBoard) (row col : Int) (f : Cell → Cell) :
    (b.modifyCellI row col f).cols = b.cols := by
  unfold GameBoard.modifyCellI
  split <;> rfl

theorem modifyCellI_mineCount (b : GameBoard) (row col : Int) (f : Cell → Cell) :
    (b.modifyCellI row col f).mineCount = b.mineCount := by
  unfold GameBoard.modifyCellI
  split <;> rfl

/-- A fresh 2×2 board with one configured mine, used by concrete scenarios. -/
def cexBoard : GameBoard := mkBoard 2 2 1

/-- A round that has not started (phase READY) whose flag counter is already
exhausted: `minesRemaining = 0` with one total mine. -/
def cexGame : Game :=
  { gameBoard := cexBoard,
    gameState := { totalMines := 1, minesRemaining := 0 } }

/-- A round that has not started, with its full counter available. -/
def cexGame1 : Game :=
  { gameBoard := cexBoard,
    gameState := { totalMines := 1, minesRemaining := 1 } }

/-- A lost round, used by the terminal-state scenarios. -/
def endedGame : Game :=
  { gameBoard := cexBoard,
    gameState := { totalMines := 1, minesRemaining := 1, state := GState.LOST } }

/-- Counterexample for C4 as stated: flagging an untouched in-bounds cell in
a round that has not ended, with `minesRemaining = 0`, leaves the counter at
0 instead of decrementing it to −1: `decrementMines` floors the counter at 0,
so over-flagging can never drive it negative. -/
theorem flagCell_no_floor_counterexample :
    cexGame.gameState.isEnded = false ∧
    cexGame.gameBoard.isValidPosition 0 0 = true ∧
    (cexGame.gameBoard.cellAt 0 0).isRevealed = false ∧
    (cexGame.gameBoard.cellAt 0 0).isFlagged = false ∧
    cexGame.gameState.minesRemaining = 0 ∧
    (GameLogic.flagCell cexGame 0 0).2.flagged = true ∧
    (GameLogic.flagCell cexGame 0 0).1.gameState.minesRemaining = 0 ∧
    (GameLogic.flagCell cexGame 0 0).1.gameState.minesRemaining ≠
      cexGame.gameState.minesRemaining - 1 := by decide

/-- C4 (amended): toggling a flag onto an in-bounds, unrevealed, unflagged
cell of a round that has not ended succeeds and decrements `minesRemaining`
by exactly 1 when the counter is positive, but leaves it unchanged when
`minesRemaining ≤ 0`: the counter is floored rather than allowed to go
negative. -/
theorem flagCell_decrements_clamped (g : Game) (row col : Int)
    (hv : g.gameBoard.isValidPosition row col = true)
    (hend : g.gameState.isEnded = false)
    (hrev : (g.gameBoard.cellAt row.toNat col.toNat).isRevealed = false)
    (hflag : (g.gameBoard.cellAt row.toNat col.toNat).isFlagged = false) :
    (GameLogic.flagCell g row col).2.success = true ∧
    (GameLogic.flagCell g row col).2.flagged = true ∧
    (GameLogic.flagCell g row col).1.gameState.minesRemaining =
      (if 0 < g.gameState.minesRemaining then g.gameState.minesRemaining - 1
       else g.gameState.minesRemaining) := by
  rw [flagCell_success g row col hv hend hrev]
  simp only [hflag, Bool.not_false, if_true]
  exact ⟨trivial, trivial, decrementMines_minesRemaining g.gameState⟩

/-- Witness for C4 (amended) on a concrete untouched cell with a positive
counter. -/
theorem flagCell_decrements_clamped_witness :
    (cexGame1.gameBoard.isValidPosition 0 0 = true ∧
     cexGame1.gameState.isEnded = false ∧
     (cexGame1.gameBoard.cellAt (0 : Int).toNat (0 : Int).toNat).isRevealed = false ∧
     (cexGame1.gameBoard.cellAt (0 : Int).toNat (0 : Int).toNat).isFlagged = false) ∧
    ((GameLogic.flagCell cexGame1 0 0).2.success = true ∧
     (GameLogic.flagCell cexGame1 0 0).2.flagged = true ∧
     (GameLogic.flagCell cexGame1 0 0).1.gameState.minesRemaining =
       (if 0 < cexGame1.gameState.minesRemaining then cexGame1.gameState.minesRemaining - 1
        else cexGame1.gameState.minesRemaining)) :=
  ⟨⟨by decide, by decide, by decide, by decide⟩,
    flagCell_decrements_clamped cexGame1 0 0 (by decide) (by decide) (by decide) (by decide)⟩

/-- Counterexample for C5 as stated: with `minesRemaining = 0` (over-flagged
round, one total mine), toggling the flag twice on an untouched cell returns
the cell to `isFlagged = false` but leaves `minesRemaining = 1`, not its
original value 0: the decrement was floored away while the increment was
not. -/
theorem flag_toggle_roundtrip_counterexample :
    cexGame.gameState.isEnded = false ∧
    cexGame.gameBoard.isValidPosition 0 0 = true ∧
    (cexGame.gameBoard.cellAt 0 0).isRevealed = false ∧
    (cexGame.gameBoard.cellAt 0 0).isFlagged = false ∧
    cexGame.gameState.minesRemaining = 0 ∧
    ((GameLogic.flagCell (GameLogic.flagCell cexGame 0 0).1 0 0).1.gameBoard.cellAt 0 0).isFlagged
      = false ∧
    (GameLogic.flagCell (GameLogic.flagCell cexGame 0 0).1 0 0).1.gameState.minesRemaining = 1 ∧
    (1 : Int) ≠ 0 := by decide

/-- C5 (amended): toggling the flag twice on an in-bounds, unrevealed,
unflagged cell of a round that has not ended restores `isFlagged = false`
and restores `minesRemaining`, provided the starting counter satisfies
`0 < minesRemaining ≤ totalMines` (as in any round that has not been
over-flagged); at `minesRemaining = 0` the round trip instead increments the
counter. -/
theorem flag_toggle_roundtrip (g : Game) (row col : Int)
    (hv : g.gameBoard.isValidPosition row col = true)
    (hend : g.gameState.isEnded = false)
    (hrev : (g.gameBoard.cellAt row.toNat col.toNat).isRevealed = false)
    (hflag : (g.gameBoard.cellAt row.toNat col.toNat).isFlagged = false)
    (h1 : 0 < g.gameState.minesRemaining)
    (h2 : g.gameState.minesRemaining ≤ g.gameState.totalMines) :
    ((GameLogic.flagCell (GameLogic.flagCell g row col).1 row col).1.gameBoard.cellAt
        row.toNat col.toNat).isFlagged = false ∧
    (GameLogic.flagCell (GameLogic.flagCell g row col).1 row col).1.gameState.minesRemaining =
      g.gameState.minesRemaining := by
  rw [flagCell_success g row col hv hend hrev]
  simp only [hflag, Bool.not_false, if_true]
  have hv1 : (g.gameBoard.modifyCellI row col Cell.flagC).isValidPosition row col = true := by
    rw [isValidPosition_modifyCellI]
    exact hv
  have htgt : (g.gameBoard.modifyCellI row col Cell.flagC).cellAt row.toNat col.toNat =
      (g.gameBoard.cellAt row.toNat col.toNat).flagC :=
    modifyCellI_cellAt_target g.gameBoard row col Cell.flagC hv
  have hrev1 : ((g.gameBoard.modifyCellI row col Cell.flagC).cellAt row.toNat
      col.toNat).isRevealed = false := by
    rw [htgt, flagC_isRevealed]
    exact hrev
  have hend1 : (g.gameState.decrementMines).isEnded = false := by
    rw [decrementMines_isEnded]
    exact hend
  have hstep := flagCell_success
    { gameBoard := g.gameBoard.modifyCellI row col Cell.flagC,
      gameState := g.gameState.decrementMines, minesPlaced := g.minesPlaced }
    row col hv1 hend1 hrev1
  rw [hstep]
  constructor
  · show (((g.gameBoard.modifyCellI row col Cell.flagC).modifyCellI row col
        Cell.flagC).cellAt row.toNat col.toNat).isFlagged = false
    rw [modifyCellI_cellAt_target _ row col Cell.flagC hv1, htgt,
      flagC_of_unrevealed hrev, flagC_of_unrevealed (show ({ g.gameBoard.cellAt row.toNat
        col.toNat with isFlagged := !(g.gameBoard.cellAt row.toNat col.toNat).isFlagged }
        : Cell).isRevealed = false from hrev)]
    simp [hflag]
  · show (if !((g.gameBoard.modifyCellI row col Cell.flagC).cellAt row.toNat
        col.toNat).isFlagged then (g.gameState.decrementMines).decrementMines
        else (g.gameState.decrementMines).incrementMines).minesRemaining =
      g.gameState.minesRemaining
    rw [htgt, flagC_of_unrevealed hrev]
    simp only [hflag, Bool.not_false, Bool.not_true, Bool.false_eq_true, if_false]
    exact dec_inc_minesRemaining g.gameState h1 h2

/-- Witness for C5 (amended) at the concrete round `cexGame1`. -/
theorem flag_toggle_roundtrip_witness :
    (cexGame1.gameBoard.isValidPosition 0 0 = true ∧
     cexGame1.gameState.isEnded = false ∧
     (cexGame1.gameBoard.cellAt (0 : Int).toNat (0 : Int).toNat).isRevealed = false ∧
     (cexGame1.gameBoard.cellAt (0 : Int).toNat (0 : Int).toNat).isFlagged = false ∧
     0 < cexGame1.gameState.minesRemaining ∧
     cexGame1.gameState.minesRemaining ≤ cexGame1.gameState.totalMines) ∧
    (((GameLogic.flagCell (GameLogic.flagCell cexGame1 0 0).1 0 0).1.gameBoard.cellAt
        (0 : Int).toNat (0 : Int).toNat).isFlagged = false ∧
     (GameLogic.flagCell (GameLogic.flagCell cexGame1 0 0).1 0 0).1.gameState.minesRemaining =
       cexGame1.gameState.minesRemaining) :=
  ⟨⟨by decide, by decide, by decide, by decide, by decide, by decide⟩,
    flag_toggle_roundtrip cexGame1 0 0 (by decide) (by decide) (by decide) (by decide)
      (by decide) (by decide)⟩

/-- C9: flagging is permitted before the round starts.  While the phase is
READY (no reveal has happened), `toggleFlag` on an in-bounds, unrevealed cell
succeeds; it places no mines (every cell's `isMine` is unchanged), leaves the
`minesPlaced` latch, the phase, and every other session-state field except
`minesRemaining` unchanged, and changes no cell except the target's
`isFlagged` bit. -/
theorem flagCell_before_start (g : Game) (row col : Int)
    (hready : g.gameState.state = GState.READY)
    (hv : g.gameBoard.isValidPosition row col = true)
    (hrev : (g.gameBoard.cellAt row.toNat col.toNat).isRevealed = false) :
    (GameLogic.flagCell g row col).2.success = true ∧
    (GameLogic.flagCell g row col).1.minesPlaced = g.minesPlaced ∧
    (GameLogic.flagCell g row col).1.gameState.state = GState.READY ∧
    (GameLogic.flagCell g row col).1.gameState.totalMines = g.gameState.totalMines ∧
    (GameLogic.flagCell g row col).1.gameState.timer = g.gameState.timer ∧
    (GameLogic.flagCell g row col).1.gameState.firstClick = g.gameState.firstClick ∧
    (GameLogic.flagCell g row col).1.gameBoard.rows = g.gameBoard.rows ∧
    (GameLogic.flagCell g row col).1.gameBoard.cols = g.gameBoard.cols ∧
    (GameLogic.flagCell g row col).1.gameBoard.mineCount = g.gameBoard.mineCount ∧
    (∀ r c : Nat, ((GameLogic.flagCell g row col).1.gameBoard.cellAt r c).isMine =
        (g.gameBoard.cellAt r c).isMine) ∧
    (∀ r c : Nat, ¬(r = row.toNat ∧ c = col.toNat) →
      (GameLogic.flagCell g row col).1.gameBoard.cellAt r c = g.gameBoard.cellAt r c) ∧
    (GameLogic.flagCell g row col).1.gameBoard.cellAt row.toNat col.toNat =
      { g.gameBoard.cellAt row.toNat col.toNat with
          isFlagged := !(g.gameBoard.cellAt row.toNat col.toNat).isFlagged } := by
  have hend : g.gameState.isEnded = false := by
    unfold GameState.isEnded
    rw [hready]
    rfl
  rw [flagCell_success g row col hv hend hrev]
  have hstate : (if !(g.gameBoard.cellAt row.toNat col.toNat).isFlagged then
      g.gameState.decrementMines else g.gameState.incrementMines).state = GState.READY := by
    split
    · rw [decrementMines_state, hready]
    · rw [incrementMines_state, hready]
  have htotal : (if !(g.gameBoard.cellAt row.toNat col.toNat).isFlagged then
      g.gameState.decrementMines else g.gameState.incrementMines).totalMines =
      g.gameState.totalMines := by
    split
    · exact decrementMines_totalMines _
    · exact incrementMines_totalMines _
  have htimer : (if !(g.gameBoard.cellAt row.toNat col.toNat).isFlagged then
      g.gameState.decrementMines else g.gameState.incrementMines).timer =
      g.gameState.timer := by
    split
    · exact decrementMines_timer _
    · exact incrementMines_timer _
  have hfc : (if !(g.gameBoard.cellAt row.toNat col.toNat).isFlagged then
      g.gameState.decrementMines else g.gameState.incrementMines).firstClick =
      g.gameState.firstClick := by
    split
    · exact decrementMines_firstClick _
    · exact incrementMines_firstClick _
  refine ⟨rfl, rfl, hstate, htotal, htimer, hfc,
    modifyCellI_rows _ _ _ _, modifyCellI_cols _ _ _ _, modifyCellI_mineCount _ _ _ _,
    ?_, ?_, ?_⟩
  · intro r c
    by_cases h : r = row.toNat ∧ c = col.toNat
    · obtain ⟨hr, hc⟩ := h
      subst hr
      subst hc
      rw [modifyCellI_cellAt_target _ _ _ _ hv, flagC_isMine]
    · rw [modifyCellI_cellAt_other _ _ _ _ _ _ h]
  · intro r c h
    exact modifyCellI_cellAt_other _ _ _ _ _ _ h
  · rw [modifyCellI_cellAt_target _ _ _ _ hv, flagC_of_unrevealed hrev]

/-- Witness for C9 at the concrete round `cexGame1` (phase READY). -/
theorem flagCell_before_start_witness :
    (cexGame1.gameState.state = GState.READY ∧
     cexGame1.gameBoard.isValidPosition 0 1 = true ∧
     (cexGame1.gameBoard.cellAt (0 : Int).toNat (1 : Int).toNat).isRevealed = false) ∧
    ((GameLogic.flagCell cexGame1 0 1).2.success = true ∧
     (GameLogic.flagCell cexGame1 0 1).1.minesPlaced = cexGame1.minesPlaced ∧
     (GameLogic.flagCell cexGame1 0 1).1.gameState.state = GState.READY ∧
     (GameLogic.flagCell cexGame1 0 1).1.gameState.totalMines = cexGame1.gameState.totalMines ∧
     (GameLogic.flagCell cexGame1 0 1).1.gameState.timer = cexGame1.gameState.timer ∧
     (GameLogic.flagCell cexGame1 0 1).1.gameState.firstClick = cexGame1.gameState.firstClick ∧
     (GameLogic.flagCell cexGame1 0 1).1.gameBoard.rows = cexGame1.gameBoard.rows ∧
     (GameLogic.flagCell cexGame1 0 1).1.gameBoard.cols = cexGame1.gameBoard.cols ∧
     (GameLogic.flagCell cexGame1 0 1).1.gameBoard.mineCount = cexGame1.gameBoard.mineCount ∧
     (∀ r c : Nat, ((GameLogic.flagCell cexGame1 0 1).1.gameBoard.cellAt r c).isMine =
         (cexGame1.gameBoard.cellAt r c).isMine) ∧
     (∀ r c : Nat, ¬(r = (0 : Int).toNat ∧ c = (1 : Int).toNat) →
       (GameLogic.flagCell cexGame1 0 1).1.gameBoard.cellAt r c =
         cexGame1.gameBoard.cellAt r c) ∧
     (GameLogic.flagCell cexGame1 0 1).1.gameBoard.cellAt (0 : Int).toNat (1 : Int).toNat =
       { cexGame1.gameBoard.cellAt (0 : Int).toNat (1 : Int).toNat with
           isFlagged := !(cexGame1.gameBoard.cellAt (0 : Int).toNat (1 : Int).toNat).isFlagged }) :=
  ⟨⟨by decide, by decide, by decide⟩,
    flagCell_before_start cexGame1 0 1 (by decide) (by decide) (by decide)⟩

/-- Counterexample for C7 as stated: in a finished round, a reveal or flag
call at an out-of-bounds coordinate fails with `Invalid position`, not
`Game is over` — the bounds check runs before the game-over gate. -/
theorem ended_rejects_actions_counterexample :
    endedGame.gameState.isEnded = true ∧
    (GameLogic.revealCell (fun _ => 0) endedGame (-1) 0).2.error = some "Invalid position" ∧
    (GameLogic.flagCell endedGame (-1) 0).2.error = some "Invalid position" ∧
    some "Invalid position" ≠ some "Game is over" := by decide

/-- C7 (amended): once the session phase is WON or LOST, every `revealCell`
or `flagCell` call returns the game unchanged (no cell, phase, counter or
timer mutation); the failure kind is `Game is over` for every in-bounds
coordinate, while out-of-bounds coordinates keep failing with
`Invalid position`. -/
theorem ended_rejects_actions (rand : Nat → Nat) (g : Game) (row col : Int)
    (hend : g.gameState.isEnded = true) :
    (GameLogic.revealCell rand g row col).1 = g ∧
    (GameLogic.flagCell g row col).1 = g ∧
    (g.gameBoard.isValidPosition row col = true →
      (GameLogic.revealCell rand g row col).2 =
        { success := false, error := some "Game is over" } ∧
      (GameLogic.flagCell g row col).2 =
        { success := false, error := some "Game is over" }) := by
  unfold GameLogic.revealCell GameLogic.flagCell
  cases hv : g.gameBoard.isValidPosition row col <;> simp [hv, hend]

/-- Witness for C7 at the concrete finished round `endedGame`. -/
theorem ended_rejects_actions_witness :
    endedGame.gameState.isEnded = true ∧
    ((GameLogic.revealCell (fun _ => 0) endedGame 0 0).1 = endedGame ∧
     (GameLogic.flagCell endedGame 0 0).1 = endedGame ∧
     (endedGame.gameBoard.isValidPosition 0 0 = true →
       (GameLogic.revealCell (fun _ => 0) endedGame 0 0).2 =
         { success := false, error := some "Game is over" } ∧
       (GameLogic.flagCell endedGame 0 0).2 =
         { success := false, error := some "Game is over" })) :=
  ⟨by decide, ended_rejects_actions (fun _ => 0) endedGame 0 0 (by decide)⟩

/-! ### Cascade lemmas (C6, C8) -/

theorem cascadeLoop_no_mine (fuel : Nat) :
    ∀ (b : GameBoard) (queue visited : List (Int × Int)) (acc : List Cell),
      acc.all (fun cell => !cell.isMine) = true →
      ∀ res, GameLogic.cascadeLoop b fuel queue visited acc = some res →
        res.2.all (fun cell => !cell.isMine) = true := by
  induction fuel with
  | zero =>
    intro b queue visited acc hacc res hres
    cases queue with
    | nil =>
      simp only [GameLogic.cascadeLoop] at hres
      cases hres
      exact hacc
    | cons q rest => exact Option.noConfusion hres
  | succ fuel ih =>
    intro b queue visited acc hacc res hres
    cases queue with
    | nil =>
      simp only [GameLogic.cascadeLoop] at hres
      cases hres
      exact hacc
    | cons q rest =>
      obtain ⟨row, col⟩ := q
      simp only [GameLogic.cascadeLoop] at hres
      split at hres
      · exact ih _ _ _ _ hacc _ hres
      · split at hres
        · exact ih _ _ _ _ hacc _ hres
        · next cell hcell =>
          split at hres
          · exact ih _ _ _ _ hacc _ hres
          · next hguard =>
            simp only [Bool.or_eq_true, not_or, Bool.not_eq_true] at hguard
            have hmine : cell.isMine = false := hguard.2
            split at hres
            · refine ih _ _ _ _ ?_ _ hres
              rw [List.all_append]
              simp [hacc, hmine]
            · refine ih _ _ _ _ ?_ _ hres
              rw [List.all_append]
              simp [hacc, hmine]

/-- C6: the flood-fill cascade never reveals a mine.  Every cell in the list
returned by `cascadeReveal` has `isMine = false`, for every board state and
seed coordinate; hence a loss can only be triggered by the one explicitly
revealed cell in `revealCell`, never by a cell the cascade revealed. -/
theorem cascadeReveal_no_mine (b : GameBoard) (startRow startCol : Int) :
    ((GameLogic.cascadeReveal b startRow startCol).2).all (fun cell => !cell.isMine) = true := by
  unfold GameLogic.cascadeReveal
  split
  · next res hres => exact cascadeLoop_no_mine _ _ _ _ [] rfl _ hres
  · rfl

theorem revealC_row (c : Cell) : (c.revealC).row = c.row := by
  unfold Cell.revealC
  split <;> rfl

theorem revealC_col (c : Cell) : (c.revealC).col = c.col := by
  unfold Cell.revealC
  split <;> rfl

theorem modifyCellI_allCoords (b : GameBoard) (row col : Int) (f : Cell → Cell) :
    (b.modifyCellI row col f).allCoords = b.allCoords := by
  unfold GameBoard.allCoords
  rw [modifyCellI_rows, modifyCellI_cols]

theorem coordsOk_modifyCellI_revealC (b : GameBoard) (row col : Int) (h : coordsOk b) :
    coordsOk (b.modifyCellI row col Cell.revealC) := by
  intro p hp
  rw [modifyCellI_allCoords] at hp
  by_cases htgt : p.1 = row.toNat ∧ p.2 = col.toNat
  · unfold GameBoard.modifyCellI
    split
    · unfold GameBoard.modifyCell
      simp only [htgt.1, htgt.2, and_self, if_true]
      rw [revealC_row, revealC_col]
      have := h p hp
      rw [← htgt.1, ← htgt.2]
      exact this
    · exact h p hp
  · unfold GameBoard.modifyCellI
    split
    · unfold GameBoard.modifyCell
      simp only [htgt, if_false]
      exact h p hp
    · exact h p hp

/-- The set of in-bounds coordinates, as `Int` pairs. -/
def boundsFinset (b : GameBoard) : Finset (Int × Int) :=
  ((Finset.range b.rows) ×ˢ (Finset.range b.cols)).image
    (fun p => ((p.1 : Int), (p.2 : Int)))

theorem mem_boundsFinset_of_lt (b : GameBoard) (r c : Nat) (hr : r < b.rows) (hc : c < b.cols) :
    (((r : Nat) : Int), ((c : Nat) : Int)) ∈ boundsFinset b := by
  unfold boundsFinset
  rw [Finset.mem_image]
  refine ⟨(r, c), ?_, rfl⟩
  rw [Finset.mem_product]
  constructor <;> rw [Finset.mem_range]
  · exact hr
  · exact hc

theorem boundsFinset_card (b : GameBoard) : (boundsFinset b).card ≤ b.rows * b.cols := by
  unfold boundsFinset
  refine le_trans Finset.card_image_le ?_
  rw [Finset.card_product, Finset.card_range, Finset.card_range]

theorem mem_getAdjacentCells (b : GameBoard) (row col : Int) (n : Cell)
    (hn : n ∈ b.getAdjacentCells row col) :
    ∃ r c : Nat, r < b.rows ∧ c < b.cols ∧ n = b.cellAt r c := by
  unfold GameBoard.getAdjacentCells at hn
  rw [List.mem_filterMap] at hn
  obtain ⟨d, _, hd⟩ := hn
  unfold GameBoard.getCell at hd
  split at hd
  · next hval =>
    unfold GameBoard.isValidPosition at hval
    simp only [Bool.and_eq_true, decide_eq_true_eq] at hval
    obtain ⟨⟨⟨h1, h2⟩, h3⟩, h4⟩ := hval
    refine ⟨(row + d.1).toNat, (col + d.2).toNat, by omega, by omega, ?_⟩
    exact (Option.some_inj.mp hd).symm
  · exact Option.noConfusion hd

theorem cascadeLoop_isSome (fuel : Nat) :
    ∀ (b : GameBoard) (queue visited : List (Int × Int)) (acc : List Cell)
      (S : Finset (Int × Int)),
      coordsOk b →
      (∀ r c : Nat, r < b.rows → c < b.cols → (((r : Nat) : Int), ((c : Nat) : Int)) ∈ S) →
      (∀ p ∈ queue, p ∈ S) →
      9 * (S \ visited.toFinset).card + queue.length ≤ fuel →
      (GameLogic.cascadeLoop b fuel queue visited acc).isSome = true := by
  induction fuel with
  | zero =>
    intro b queue visited acc S hco hS hq hfuel
    cases queue with
    | nil => rfl
    | cons q rest =>
      exfalso
      simp only [List.length_cons] at hfuel
      omega
  | succ fuel ih =>
    intro b queue visited acc S hco hS hq hfuel
    cases queue with
    | nil => rfl
    | cons q rest =>
      obtain ⟨row, col⟩ := q
      simp only [List.length_cons] at hfuel
      simp only [GameLogic.cascadeLoop]
      split
      · apply ih b rest visited acc S hco hS (fun p hp => hq p (List.mem_cons_of_mem _ hp))
        omega
      · next hnotv =>
        have hpS : (row, col) ∈ S := hq _ (List.mem_cons_self _ _)
        have hmem : (row, col) ∈ S \ visited.toFinset :=
          Finset.mem_sdiff.mpr ⟨hpS, fun hc => hnotv (List.mem_toFinset.mp hc)⟩
        have hcard : (S \ ((row, col) :: visited).toFinset).card
            = (S \ visited.toFinset).card - 1 := by
          rw [List.toFinset_cons, Finset.sdiff_insert, Finset.card_erase_of_mem hmem]
        have hk : 1 ≤ (S \ visited.toFinset).card := by
          have hpos : 0 < (S \ visited.toFinset).card := Finset.card_pos.mpr ⟨_, hmem⟩
          omega
        split
        · apply ih b rest ((row, col) :: visited) acc S hco hS
            (fun p hp => hq p (List.mem_cons_of_mem _ hp))
          rw [hcard]
          omega
        · next cell hcell =>
          split
          · apply ih b rest ((row, col) :: visited) acc S hco hS
              (fun p hp => hq p (List.mem_cons_of_mem _ hp))
            rw [hcard]
            omega
          · have hco' : coordsOk (b.modifyCellI row col Cell.revealC) :=
              coordsOk_modifyCellI_revealC b row col hco
            have hS' : ∀ r c : Nat, r < (b.modifyCellI row col Cell.revealC).rows →
                c < (b.modifyCellI row col Cell.revealC).cols →
                (((r : Nat) : Int), ((c : Nat) : Int)) ∈ S := by
              rw [modifyCellI_rows, modifyCellI_cols]
              exact hS
            split
            · apply ih (b.modifyCellI row col Cell.revealC) rest ((row, col) :: visited)
                _ S hco' hS' (fun p hp => hq p (List.mem_cons_of_mem _ hp))
              rw [hcard]
              omega
            · apply ih (b.modifyCellI row col Cell.revealC) _ ((row, col) :: visited)
                _ S hco' hS' ?_ ?_
              · intro p hp
                rcases List.mem_append.mp hp with h | h
                · exact hq p (List.mem_cons_of_mem _ h)
                · rw [List.mem_map] at h
                  obtain ⟨n, hn, rfl⟩ := h
                  have hn' := (List.mem_filter.mp hn).1
                  obtain ⟨r, c, hr, hc, rfl⟩ :=
                    mem_getAdjacentCells (b.modifyCellI row col Cell.revealC) row col n hn'
                  have hrc := hco' (r, c)
                    ((mem_allCoords (b.modifyCellI row col Cell.revealC) (r, c)).mpr ⟨hr, hc⟩)
                  rw [hrc.1, hrc.2]
                  rw [modifyCellI_rows] at hr
                  rw [modifyCellI_cols] at hc
                  exact hS r c hr hc
              · have h8 : (((b.modifyCellI row col Cell.revealC).getAdjacentCells row
                    col).filter (fun n => decide ((n.row, n.col) ∉ (row, col) :: visited) &&
                      !n.isRevealed && !n.isFlagged)).length ≤ 8 := by
                  refine le_trans (List.length_filter_le _ _) ?_
                  refine le_trans (List.length_filterMap_le _ _) ?_
                  decide
                rw [List.length_append, List.length_map, hcard]
                omega

/-- C8: cascade termination.  On every finite board whose cells carry their
own coordinates (the Board invariant), the flood-fill loop started from any
seed coordinate finishes within `cascadeFuel` steps — the visited set admits
each coordinate at most once and the grid is finite, so the fuel
`9·(rows·cols+1)+1` never runs out and `cascadeLoop` returns a result. -/
theorem cascadeReveal_terminates (b : GameBoard) (hco : coordsOk b)
    (startRow startCol : Int) :
    (GameLogic.cascadeLoop b (GameLogic.cascadeFuel b)
      [(startRow, startCol)] [] []).isSome = true := by
  apply cascadeLoop_isSome (GameLogic.cascadeFuel b) b [(startRow, startCol)] [] []
    (insert (startRow, startCol) (boundsFinset b)) hco
  · intro r c hr hc
    exact Finset.mem_insert_of_mem (mem_boundsFinset_of_lt b r c hr hc)
  · intro p hp
    rw [List.mem_singleton] at hp
    rw [hp]
    exact Finset.mem_insert_self _ _
  · have hcard : (insert (startRow, startCol) (boundsFinset b)).card ≤ b.rows * b.cols + 1 :=
      le_trans (Finset.card_insert_le _ _) (by
        have := boundsFinset_card b
        omega)
    have hempty : (insert (startRow, startCol) (boundsFinset b) \
        ([] : List (Int × Int)).toFinset).card =
        (insert (startRow, startCol) (boundsFinset b)).card := by
      rw [List.toFinset_nil, Finset.sdiff_empty]
    unfold GameLogic.cascadeFuel
    rw [hempty, List.length_singleton]
    omega

/-- Witness for C8 at a concrete coordinate-faithful 2×2 board. -/
theorem cascadeReveal_terminates_witness :
    coordsOk cexBoard ∧
    (GameLogic.cascadeLoop cexBoard (GameLogic.cascadeFuel cexBoard)
      [(0, 0)] [] []).isSome = true :=
  ⟨by decide, cascadeReveal_terminates cexBoard (by decide) 0 0⟩

/-! ### Characterization of revealAllMines (C10) -/

theorem revealMineStep_foldl (L : List (Nat × Nat)) :
    ∀ (b : GameBoard) (acc : List Cell), L.Nodup →
      ((L.foldl GameLogic.revealMineStep (b, acc)).2 =
        acc ++ (L.filter (fun p => (b.cellAt p.1 p.2).isMine &&
          !(b.cellAt p.1 p.2).isRevealed && !(b.cellAt p.1 p.2).isFlagged)).map
          (fun p => (b.cellAt p.1 p.2).revealC)) ∧
      (∀ q : Nat × Nat, q ∉ L →
        (L.foldl GameLogic.revealMineStep (b, acc)).1.cellAt q.1 q.2 = b.cellAt q.1 q.2) ∧
      (∀ q : Nat × Nat, q ∈ L →
        (L.foldl GameLogic.revealMineStep (b, acc)).1.cellAt q.1 q.2 =
          (if (b.cellAt q.1 q.2).isMine && !(b.cellAt q.1 q.2).isRevealed &&
              !(b.cellAt q.1 q.2).isFlagged
           then (b.cellAt q.1 q.2).revealC else b.cellAt q.1 q.2)) := by
  induction L with
  | nil =>
    intro b acc _
    exact ⟨by simp, fun q _ => rfl, fun q hq => absurd hq (List.not_mem_nil q)⟩
  | cons p L ih =>
    intro b acc hnd
    obtain ⟨hpL, hndL⟩ := List.nodup_cons.mp hnd
    rw [List.foldl_cons]
    by_cases hm : ((b.cellAt p.1 p.2).isMine && !(b.cellAt p.1 p.2).isRevealed) = true
    · by_cases hf : (!(b.cellAt p.1 p.2).isFlagged) = true
      · have hstep : GameLogic.revealMineStep (b, acc) p =
            (b.modifyCell p.1 p.2 Cell.revealC, acc ++ [(b.cellAt p.1 p.2).revealC]) := by
          simp only [GameLogic.revealMineStep]
          rw [if_pos hm, if_pos hf]
        rw [hstep]
        obtain ⟨ih1, ih2, ih3⟩ :=
          ih (b.modifyCell p.1 p.2 Cell.revealC) (acc ++ [(b.cellAt p.1 p.2).revealC]) hndL
        have hother : ∀ q : Nat × Nat, q ≠ p →
            (b.modifyCell p.1 p.2 Cell.revealC).cellAt q.1 q.2 = b.cellAt q.1 q.2 := by
          intro q hq
          rw [modifyCell_cellAt]
          rw [if_neg (fun hc => hq (Prod.ext hc.1 hc.2))]
        have hLother : ∀ q : Nat × Nat, q ∈ L →
            (b.modifyCell p.1 p.2 Cell.revealC).cellAt q.1 q.2 = b.cellAt q.1 q.2 :=
          fun q hq => hother q (fun he => hpL (he ▸ hq))
        have htgt : (b.modifyCell p.1 p.2 Cell.revealC).cellAt p.1 p.2 =
            (b.cellAt p.1 p.2).revealC := by
          rw [modifyCell_cellAt, if_pos ⟨rfl, rfl⟩]
        have hpred : ((b.cellAt p.1 p.2).isMine && !(b.cellAt p.1 p.2).isRevealed &&
            !(b.cellAt p.1 p.2).isFlagged) = true := by
          rw [hm, hf]
          rfl
        have hfc : List.filter (fun q : Nat × Nat => (b.cellAt q.1 q.2).isMine &&
            !(b.cellAt q.1 q.2).isRevealed && !(b.cellAt q.1 q.2).isFlagged) (p :: L) =
            p :: List.filter (fun q : Nat × Nat => (b.cellAt q.1 q.2).isMine &&
            !(b.cellAt q.1 q.2).isRevealed && !(b.cellAt q.1 q.2).isFlagged) L :=
          List.filter_cons_of_pos hpred
        refine ⟨?_, ?_, ?_⟩
        · rw [ih1, hfc, List.map_cons,
            List.filter_congr (fun q hq => by rw [hLother q hq]),
            List.map_congr_left (fun q hq => by
              rw [hLother q (List.mem_filter.mp hq).1]),
            List.append_assoc]
          rfl
        · intro q hq
          have hqL : q ∉ L := fun hc => hq (List.mem_cons_of_mem _ hc)
          have hqp : q ≠ p := fun he => hq (he ▸ List.mem_cons_self p L)
          rw [ih2 q hqL, hother q hqp]
        · intro q hq
          rcases List.mem_cons.mp hq with he | hL
          · subst he
            rw [ih2 q hpL, htgt, if_pos hpred]
          · rw [ih3 q hL, hLother q hL]
      · have hstep : GameLogic.revealMineStep (b, acc) p = (b, acc) := by
          simp only [GameLogic.revealMineStep]
          rw [if_pos hm, if_neg hf]
        rw [hstep]
        obtain ⟨ih1, ih2, ih3⟩ := ih b acc hndL
        have hpred : ¬(((b.cellAt p.1 p.2).isMine && !(b.cellAt p.1 p.2).isRevealed &&
            !(b.cellAt p.1 p.2).isFlagged) = true) := by
          rw [hm]
          simpa using hf
        have hfc : List.filter (fun q : Nat × Nat => (b.cellAt q.1 q.2).isMine &&
            !(b.cellAt q.1 q.2).isRevealed && !(b.cellAt q.1 q.2).isFlagged) (p :: L) =
            List.filter (fun q : Nat × Nat => (b.cellAt q.1 q.2).isMine &&
            !(b.cellAt q.1 q.2).isRevealed && !(b.cellAt q.1 q.2).isFlagged) L :=
          List.filter_cons_of_neg hpred
        refine ⟨?_, ?_, ?_⟩
        · rw [ih1, hfc]
        · intro q hq
          exact ih2 q (fun hc => hq (List.mem_cons_of_mem _ hc))
        · intro q hq
          rcases List.mem_cons.mp hq with he | hL
          · subst he
            rw [ih2 q hpL, if_neg hpred]
          · exact ih3 q hL
    · have hstep : GameLogic.revealMineStep (b, acc) p = (b, acc) := by
        simp only [GameLogic.revealMineStep]
        rw [if_neg hm]
      rw [hstep]
      obtain ⟨ih1, ih2, ih3⟩ := ih b acc hndL
      have hpred : ¬(((b.cellAt p.1 p.2).isMine && !(b.cellAt p.1 p.2).isRevealed &&
          !(b.cellAt p.1 p.2).isFlagged) = true) := by
        intro hc
        rw [Bool.and_eq_true, Bool.and_eq_true] at hc
        exact hm (by rw [hc.1.1, hc.1.2]; rfl)
      have hfc : List.filter (fun q : Nat × Nat => (b.cellAt q.1 q.2).isMine &&
          !(b.cellAt q.1 q.2).isRevealed && !(b.cellAt q.1 q.2).isFlagged) (p :: L) =
          List.filter (fun q : Nat × Nat => (b.cellAt q.1 q.2).isMine &&
          !(b.cellAt q.1 q.2).isRevealed && !(b.cellAt q.1 q.2).isFlagged) L :=
        List.filter_cons_of_neg hpred
      refine ⟨?_, ?_, ?_⟩
      · rw [ih1, hfc]
      · intro q hq
        exact ih2 q (fun hc => hq (List.mem_cons_of_mem _ hc))
      · intro q hq
        rcases List.mem_cons.mp hq with he | hL
        · subst he
          rw [ih2 q hpL, if_neg hpred]
        · exact ih3 q hL

/-- C10: end-of-round mine reveal skips flagged mines.  `revealAllMines`
returns exactly the cells that were unrevealed, unflagged mines (each
returned in its revealed form), reveals exactly those cells on the board,
and leaves every other cell — flagged mines and all non-mine cells —
unchanged. -/
theorem revealAllMines_spec (b : GameBoard) :
    ((GameLogic.revealAllMines b).2 =
      (b.allCoords.filter (fun p => (b.cellAt p.1 p.2).isMine &&
        !(b.cellAt p.1 p.2).isRevealed && !(b.cellAt p.1 p.2).isFlagged)).map
        (fun p => (b.cellAt p.1 p.2).revealC)) ∧
    (∀ q : Nat × Nat, q ∈ b.allCoords →
      (GameLogic.revealAllMines b).1.cellAt q.1 q.2 =
        (if (b.cellAt q.1 q.2).isMine && !(b.cellAt q.1 q.2).isRevealed &&
            !(b.cellAt q.1 q.2).isFlagged
         then (b.cellAt q.1 q.2).revealC else b.cellAt q.1 q.2)) ∧
    (∀ q : Nat × Nat, q ∉ b.allCoords →
      (GameLogic.revealAllMines b).1.cellAt q.1 q.2 = b.cellAt q.1 q.2) := by
  obtain ⟨h1, h2, h3⟩ := revealMineStep_foldl b.allCoords b [] (allCoords_nodup b)
  exact ⟨by simpa using h1, h3, h2⟩

/-- Witness for C3 (amended) at a concrete board and exclusion coordinate. -/
theorem placeMines_mine_count_witness :
    ((0 : Int) ≤ (mkBoard 2 2 3).mineCount ∧ 0 < (mkBoard 2 2 3).rows * (mkBoard 2 2 3).cols) ∧
    (((((mkBoard 2 2 3).placeMines (fun _ => 0) 0 0).1).getCurrentMineCount : Int) =
       ((mkBoard 2 2 3).placeMines (fun _ => 0) 0 0).2 ∧
     ((mkBoard 2 2 3).placeMines (fun _ => 0) 0 0).2 =
       min (min (mkBoard 2 2 3).mineCount
           ((((mkBoard 2 2 3).rows * (mkBoard 2 2 3).cols : Nat) : Int) - 1))
         ((((mkBoard 2 2 3).validPositions 0 0).length : Nat) : Int)) :=
  ⟨⟨by decide, by decide⟩, placeMines_mine_count (mkBoard 2 2 3) (fun _ => 0) 0 0
    (by decide) (by decide)⟩
